import Mathlib

/-!
Verification development for the StellarSpend contracts repository.

The Soroban contracts are shallowly embedded as pure Lean functions:

* addresses are opaque identifiers, modelled as `Nat`;
* `i128` values are modelled as unbounded `Int` (the Soroban release
  profile enables overflow checks, so an overflowing operation aborts the
  whole call; an aborted call performs no writes and emits nothing, which
  the `Option`-valued embeddings represent by `none`);
* `u64` arithmetic that the contracts perform is modelled as `Nat`
  arithmetic guarded by an explicit `< 2 ^ 64` check, mirroring checked
  (abort-on-overflow) semantics;
* contract storage becomes an explicit state record, panics become `none`,
  and each operation returns the new state together with the list of
  notifications it published and the token transfers it requested, in
  execution order.
-/

namespace StellarSpend

/-- Opaque on-ledger address (Soroban `Address`), modelled as a bare
identifier. -/
abbrev Addr := Nat

/-- Upper bound of the `u64` range; checked `u64` arithmetic aborts at or
above this bound. -/
def U64 : Nat := 2 ^ 64

/-- A request to the external token-transfer primitive. -/
structure Transfer where
  source : Addr
  dest : Addr
  amount : Int
  deriving DecidableEq, Repr

/-! ## Recurring payment scheduler (contracts/recurring-payment/src) -/

/-- Record stored per payment id (`types.rs`, `RecurringPayment`). -/
structure RecurringPayment where
  sender : Addr
  recipient : Addr
  token : Addr
  amount : Int
  interval : Nat
  next_execution : Nat
  active : Bool
  deriving DecidableEq, Repr

/-- Instance storage of the recurring-payment contract: the
`DataKey::Payment(id)` map and the `DataKey::PaymentCount` counter
(`unwrap_or(0)` makes an absent counter read as `0`). -/
structure RPStore where
  payments : Nat → Option RecurringPayment
  paymentCount : Nat

/-- Notifications published by the recurring-payment contract.  The source
publishes them directly through `env.events().publish`, with no validation
helper in between. -/
inductive RPEvent where
  | created (id : Nat) (sender : Addr)
  | executed (id : Nat) (amount : Int) (next_execution : Nat)
  | canceled (id : Nat) (sender : Addr)
  deriving DecidableEq, Repr

/-- Write one payment record (`env.storage().instance().set(&DataKey::Payment(id), ..)`). -/
def RPStore.setPayment (s : RPStore) (id : Nat) (p : RecurringPayment) : RPStore :=
  { s with payments := fun k => if k = id then some p else s.payments k }

/-- `create_payment` from `recurring-payment/src/lib.rs`: requires sender
authorization, `amount > 0` and `interval > 0`, assigns the next sequential
id, stores the record with `next_execution = start_time` and
`active = true`, publishes a `created` notification and returns the id. -/
def create_payment (auth : Addr → Bool) (s : RPStore) (sender recipient token : Addr)
    (amount : Int) (interval start_time : Nat) :
    Option (RPStore × List RPEvent × Nat) :=
  if auth sender then
    if amount ≤ 0 then none
    else if interval = 0 then none
    else if s.paymentCount + 1 < U64 then
      some ({ s.setPayment (s.paymentCount + 1)
                ⟨sender, recipient, token, amount, interval, start_time, true⟩ with
              paymentCount := s.paymentCount + 1 },
            [RPEvent.created (s.paymentCount + 1) sender],
            s.paymentCount + 1)
    else none
  else none

/-- `execute_payment` from `recurring-payment/src/lib.rs`: requires the
record to exist and be active and `now ≥ next_execution`; transfers
`amount` from sender to recipient, then advances the schedule by
`next_execution += ((now - next_execution) / interval + 1) * interval`
(checked `u64` arithmetic; division by a zero interval also aborts), writes
the record back and publishes an `executed` notification. -/
def execute_payment (s : RPStore) (now : Nat) (payment_id : Nat) :
    Option (RPStore × List RPEvent × List Transfer) :=
  match s.payments payment_id with
  | none => none
  | some payment =>
    if ¬ payment.active then none
    else if now < payment.next_execution then none
    else if payment.interval = 0 then none
    else if payment.next_execution +
        ((now - payment.next_execution) / payment.interval + 1) * payment.interval < U64 then
      some (s.setPayment payment_id
              { payment with next_execution :=
                  payment.next_execution +
                    ((now - payment.next_execution) / payment.interval + 1) * payment.interval },
            [RPEvent.executed payment_id payment.amount
              (payment.next_execution +
                ((now - payment.next_execution) / payment.interval + 1) * payment.interval)],
            [⟨payment.sender, payment.recipient, payment.amount⟩])
    else none

/-- `cancel_payment` from `recurring-payment/src/lib.rs`: requires the
record to exist, authorization from the recorded sender, and
`active = true`; sets `active := false`, writes the record back and
publishes a `canceled` notification. -/
def cancel_payment (auth : Addr → Bool) (s : RPStore) (payment_id : Nat) :
    Option (RPStore × List RPEvent) :=
  match s.payments payment_id with
  | none => none
  | some payment =>
    if auth payment.sender then
      if payment.active then
        some (s.setPayment payment_id { payment with active := false },
              [RPEvent.canceled payment_id payment.sender])
      else none
    else none

/-- `get_payment` from `recurring-payment/src/lib.rs`: pure read. -/
def get_payment (s : RPStore) (payment_id : Nat) : Option RecurringPayment :=
  s.payments payment_id

/-- C1: for a stored payment with a positive interval and
`next_execution ≤ now`, a successful `execute_payment` sets the new
`next_execution` to `old + ((now - old) / interval + 1) * interval`
(catch-up arithmetic), that value is strictly greater than `now`, and
exactly one transfer of `amount` from sender to recipient occurs no matter
how many intervals were missed. -/
theorem execute_payment_catchup
    (s : RPStore) (now payment_id : Nat) (p : RecurringPayment)
    (s2 : RPStore) (evs : List RPEvent) (ts : List Transfer)
    (hp : s.payments payment_id = some p)
    (hint : 0 < p.interval)
    (hle : p.next_execution ≤ now)
    (hrun : execute_payment s now payment_id = some (s2, evs, ts)) :
    s2.payments payment_id =
      some { p with next_execution :=
        p.next_execution + ((now - p.next_execution) / p.interval + 1) * p.interval } ∧
    now < p.next_execution + ((now - p.next_execution) / p.interval + 1) * p.interval ∧
    ts = [⟨p.sender, p.recipient, p.amount⟩] := by
  have key : now < p.next_execution +
      ((now - p.next_execution) / p.interval + 1) * p.interval := by
    have hm := Nat.div_add_mod (now - p.next_execution) p.interval
    have hr : (now - p.next_execution) % p.interval < p.interval :=
      Nat.mod_lt _ hint
    have hx : ((now - p.next_execution) / p.interval + 1) * p.interval
        = p.interval * ((now - p.next_execution) / p.interval) + p.interval := by ring
    omega
  unfold execute_payment at hrun
  rw [hp] at hrun
  simp only at hrun
  split at hrun
  · exact absurd hrun (by simp)
  · split at hrun
    · exact absurd hrun (by simp)
    · split at hrun
      · exact absurd hrun (by simp)
      · split at hrun
        · simp only [Option.some.injEq, Prod.mk.injEq] at hrun
          obtain ⟨h1, h2, h3⟩ := hrun
          refine ⟨?_, key, h3.symm⟩
          rw [← h1]
          simp [RPStore.setPayment]
        · exact absurd hrun (by simp)

/-- Concrete payment used to witness the catch-up theorem. -/
def c1p : RecurringPayment := ⟨3, 4, 5, 10, 3600, 1000, true⟩

/-- Concrete store holding `c1p` under id 1. -/
def c1s0 : RPStore := ⟨fun id => if id = 1 then some c1p else none, 1⟩

/-- Store after executing `c1p` at time 8700. -/
def c1s1 : RPStore := c1s0.setPayment 1 { c1p with next_execution := 11800 }

/-- Witness for C1 at the spec's concrete numbers: `next_execution = 1000`,
`interval = 3600`, executed at `now = 8700`, lands on `11800 > 8700` with a
single transfer. -/
theorem execute_payment_catchup_witness :
    0 < c1p.interval ∧ c1p.next_execution ≤ 8700 ∧
    c1s1.payments 1 = some { c1p with next_execution := 11800 } ∧
    8700 < 11800 := by
  have h := execute_payment_catchup c1s0 8700 1 c1p c1s1
    [RPEvent.executed 1 10 11800] [⟨3, 4, 10⟩]
    rfl (by decide) (by decide) rfl
  exact ⟨by decide, by decide, h.1, h.2.1⟩

/-- Inversion of a successful `cancel_payment`. -/
theorem cancel_payment_spec (auth : Addr → Bool) (s : RPStore) (payment_id : Nat)
    (s2 : RPStore) (evs : List RPEvent)
    (h : cancel_payment auth s payment_id = some (s2, evs)) :
    ∃ p, s.payments payment_id = some p ∧ auth p.sender = true ∧ p.active = true ∧
      s2 = s.setPayment payment_id { p with active := false } ∧
      evs = [RPEvent.canceled payment_id p.sender] := by
  cases hp : s.payments payment_id with
  | none =>
    rw [cancel_payment] at h
    simp only [hp] at h
    exact absurd h (by simp)
  | some p =>
    rw [cancel_payment] at h
    simp only [hp] at h
    by_cases ha : auth p.sender = true
    case neg => rw [if_neg ha] at h; exact absurd h (by simp)
    rw [if_pos ha] at h
    by_cases hac : p.active = true
    case neg => rw [if_neg hac] at h; exact absurd h (by simp)
    rw [if_pos hac] at h
    simp only [Option.some.injEq, Prod.mk.injEq] at h
    exact ⟨p, rfl, ha, hac, h.1.symm, h.2.symm⟩

/-- Inversion of a successful `create_payment`. -/
theorem create_payment_spec (auth : Addr → Bool) (s : RPStore)
    (sender recipient token : Addr) (amount : Int) (interval start_time : Nat)
    (s2 : RPStore) (evs : List RPEvent) (pid : Nat)
    (h : create_payment auth s sender recipient token amount interval start_time
      = some (s2, evs, pid)) :
    auth sender = true ∧ 0 < amount ∧ 0 < interval ∧ pid = s.paymentCount + 1 ∧
    s2.paymentCount = s.paymentCount + 1 ∧
    ∀ k, s2.payments k =
      if k = s.paymentCount + 1 then
        some ⟨sender, recipient, token, amount, interval, start_time, true⟩
      else s.payments k := by
  unfold create_payment at h
  by_cases h1 : auth sender
  case neg => rw [if_neg (by simpa using h1)] at h; exact absurd h (by simp)
  rw [if_pos h1] at h
  by_cases h2 : amount ≤ 0
  case pos => rw [if_pos h2] at h; exact absurd h (by simp)
  rw [if_neg h2] at h
  by_cases h3 : interval = 0
  case pos => rw [if_pos h3] at h; exact absurd h (by simp)
  rw [if_neg h3] at h
  by_cases h4 : s.paymentCount + 1 < U64
  case neg => rw [if_neg h4] at h; exact absurd h (by simp)
  rw [if_pos h4] at h
  simp only [Option.some.injEq, Prod.mk.injEq] at h
  refine ⟨h1, by omega, by omega, h.2.2.symm, by rw [← h.1], ?_⟩
  intro k
  rw [← h.1]
  simp [RPStore.setPayment]

/-- Inversion of a successful `execute_payment`. -/
theorem execute_payment_spec (s : RPStore) (now payment_id : Nat)
    (s2 : RPStore) (evs : List RPEvent) (ts : List Transfer)
    (h : execute_payment s now payment_id = some (s2, evs, ts)) :
    ∃ p, s.payments payment_id = some p ∧ p.active = true ∧
      p.next_execution ≤ now ∧ 0 < p.interval ∧
      s2.paymentCount = s.paymentCount ∧
      ∀ k, s2.payments k =
        if k = payment_id then
          some { p with next_execution :=
            p.next_execution + ((now - p.next_execution) / p.interval + 1) * p.interval }
        else s.payments k := by
  cases hp : s.payments payment_id with
  | none =>
    rw [execute_payment] at h
    simp only [hp] at h
    exact absurd h (by simp)
  | some p =>
    rw [execute_payment] at h
    simp only [hp] at h
    by_cases h1 : p.active = true
    case neg => rw [if_pos h1] at h; exact absurd h (by simp)
    rw [if_neg (not_not_intro h1)] at h
    by_cases h2 : now < p.next_execution
    case pos => rw [if_pos h2] at h; exact absurd h (by simp)
    rw [if_neg h2] at h
    by_cases h3 : p.interval = 0
    case pos => rw [if_pos h3] at h; exact absurd h (by simp)
    rw [if_neg h3] at h
    by_cases h4 : p.next_execution +
        ((now - p.next_execution) / p.interval + 1) * p.interval < U64
    case neg => rw [if_neg h4] at h; exact absurd h (by simp)
    rw [if_pos h4] at h
    simp only [Option.some.injEq, Prod.mk.injEq] at h
    refine ⟨p, rfl, h1, by omega, by omega, by rw [← h.1]; rfl, ?_⟩
    intro k
    rw [← h.1]
    simp [RPStore.setPayment]

/-- One public operation of the recurring-payment contract. -/
inductive RPOp where
  | create (sender recipient token : Addr) (amount : Int) (interval start_time : Nat)
  | execute (now : Nat) (payment_id : Nat)
  | cancel (payment_id : Nat)

/-- Resulting store of one public operation (when it does not abort). -/
def RPOp.run (auth : Addr → Bool) (op : RPOp) (s : RPStore) : Option RPStore :=
  match op with
  | .create sender recipient token amount interval start_time =>
    (create_payment auth s sender recipient token amount interval start_time).map Prod.fst
  | .execute now payment_id => (execute_payment s now payment_id).map Prod.fst
  | .cancel payment_id => (cancel_payment auth s payment_id).map Prod.fst

/-- Store well-formedness maintained by the contract: no record lives above
the `PaymentCount` counter (true of the empty initial storage, and, as the
C8 theorem shows, preserved by every operation). -/
def RPStore.WF (s : RPStore) : Prop :=
  ∀ id, s.paymentCount < id → s.payments id = none

/-- C8: in any well-formed store, the `active` flag only ever moves from
`true` to `false`: every operation leaves each inactive record untouched
(so no operation ever reactivates it, and well-formedness is preserved, so
this persists across any sequence of operations); a successful
`cancel_payment` happens only on an active record and permanently stores
`active := false`; canceling an already-canceled record aborts with no
state change. -/
theorem active_flag_irreversible (auth : Addr → Bool) (s : RPStore) (hwf : s.WF) :
    (∀ op s2, RPOp.run auth op s = some s2 → s2.WF) ∧
    (∀ id p, s.payments id = some p → p.active = false →
      ∀ op s2, RPOp.run auth op s = some s2 → s2.payments id = some p) ∧
    (∀ id p s2 evs, s.payments id = some p →
      cancel_payment auth s id = some (s2, evs) →
      p.active = true ∧ s2.payments id = some { p with active := false }) ∧
    (∀ id p, s.payments id = some p → p.active = false →
      cancel_payment auth s id = none) := by
  have hbound : ∀ id p, s.payments id = some p → id ≤ s.paymentCount := by
    intro id p hp
    by_contra hgt
    rw [hwf id (by omega)] at hp
    exact absurd hp (by simp)
  refine ⟨?_, ?_, ?_, ?_⟩
  · intro op s2 hrun
    cases op with
    | create sender recipient token amount interval start_time =>
      obtain ⟨r, hr, hfst⟩ := Option.map_eq_some'.mp hrun
      obtain ⟨r1, r2⟩ := r
      obtain ⟨-, -, -, -, hcnt, hpay⟩ :=
        create_payment_spec auth s sender recipient token amount interval start_time
          r1 r2.1 r2.2 hr
      intro id hid
      rw [← hfst] at hid ⊢
      rw [hpay id, if_neg (by simp only [hcnt] at hid; omega)]
      exact hwf id (by simp only [hcnt] at hid; omega)
    | execute now payment_id =>
      obtain ⟨r, hr, hfst⟩ := Option.map_eq_some'.mp hrun
      obtain ⟨r1, r2⟩ := r
      obtain ⟨p, hp, -, -, -, hcnt, hpay⟩ :=
        execute_payment_spec s now payment_id r1 r2.1 r2.2 hr
      intro id hid
      rw [← hfst] at hid ⊢
      rw [hpay id, if_neg ?_]
      · exact hwf id (by simp only [hcnt] at hid; omega)
      · have := hbound payment_id p hp
        simp only [hcnt] at hid
        omega
    | cancel payment_id =>
      obtain ⟨r, hr, hfst⟩ := Option.map_eq_some'.mp hrun
      obtain ⟨r1, r2⟩ := r
      obtain ⟨p, hp, -, -, hs2, -⟩ := cancel_payment_spec auth s payment_id r1 r2 hr
      intro id hid
      rw [← hfst, hs2] at hid ⊢
      have := hbound payment_id p hp
      simp only [RPStore.setPayment] at hid ⊢
      rw [if_neg (by omega)]
      exact hwf id (by exact hid)
  · intro id p hp hinactive op s2 hrun
    cases op with
    | create sender recipient token amount interval start_time =>
      obtain ⟨r, hr, hfst⟩ := Option.map_eq_some'.mp hrun
      obtain ⟨r1, r2⟩ := r
      obtain ⟨-, -, -, -, -, hpay⟩ :=
        create_payment_spec auth s sender recipient token amount interval start_time
          r1 r2.1 r2.2 hr
      have := hbound id p hp
      rw [← hfst, hpay id, if_neg (by omega)]
      exact hp
    | execute now payment_id =>
      obtain ⟨r, hr, hfst⟩ := Option.map_eq_some'.mp hrun
      obtain ⟨r1, r2⟩ := r
      obtain ⟨q, hq, hqact, -, -, -, hpay⟩ :=
        execute_payment_spec s now payment_id r1 r2.1 r2.2 hr
      have hne : id ≠ payment_id := by
        intro heq
        rw [heq, hq] at hp
        cases hp
        rw [hqact] at hinactive
        exact absurd hinactive (by simp)
      rw [← hfst, hpay id, if_neg hne]
      exact hp
    | cancel payment_id =>
      obtain ⟨r, hr, hfst⟩ := Option.map_eq_some'.mp hrun
      obtain ⟨r1, r2⟩ := r
      obtain ⟨q, hq, -, hqact, hs2, -⟩ := cancel_payment_spec auth s payment_id r1 r2 hr
      have hne : id ≠ payment_id := by
        intro heq
        rw [heq, hq] at hp
        cases hp
        rw [hqact] at hinactive
        exact absurd hinactive (by simp)
      rw [← hfst, hs2]
      simp only [RPStore.setPayment]
      rw [if_neg hne]
      exact hp
  · intro id p s2 evs hp hrun
    obtain ⟨q, hq, -, hqact, hs2, -⟩ := cancel_payment_spec auth s id s2 evs hrun
    rw [hp] at hq
    cases hq
    refine ⟨hqact, ?_⟩
    rw [hs2]
    simp [RPStore.setPayment]
  · intro id p hp hinactive
    rw [cancel_payment]
    simp only [hp]
    by_cases ha : auth p.sender = true
    · rw [if_pos ha, if_neg (by simp [hinactive])]
    · rw [if_neg ha]

/-- Concrete inactive payment for the C8 witness. -/
def c8p : RecurringPayment := ⟨3, 4, 5, 10, 60, 100, false⟩

/-- Concrete store holding the inactive `c8p` under id 1. -/
def c8s : RPStore := ⟨fun id => if id = 1 then some c8p else none, 1⟩

/-- Witness for C8: canceling the already-canceled concrete payment fails. -/
theorem active_flag_irreversible_witness :
    cancel_payment (fun _ => true) c8s 1 = none := by
  have hwf : c8s.WF := by
    intro id hid
    have hid1 : 1 < id := hid
    show (if id = 1 then some c8p else none) = none
    rw [if_neg (by omega)]
  have h := active_flag_irreversible (fun _ => true) c8s hwf
  exact h.2.2.2 1 c8p rfl rfl

/-- C10: a successful `cancel_payment` rewrites the record to the old one
with only `active` flipped to `false` (sender, recipient, token, amount,
interval and `next_execution` unchanged), leaves every other payment id
untouched and does not move the id counter. -/
theorem cancel_payment_frame (auth : Addr → Bool) (s : RPStore) (payment_id : Nat)
    (p : RecurringPayment) (s2 : RPStore) (evs : List RPEvent)
    (hp : s.payments payment_id = some p)
    (hrun : cancel_payment auth s payment_id = some (s2, evs)) :
    s2.payments payment_id = some { p with active := false } ∧
    (∀ j, j ≠ payment_id → s2.payments j = s.payments j) ∧
    s2.paymentCount = s.paymentCount := by
  obtain ⟨q, hq, -, -, hs2, -⟩ := cancel_payment_spec auth s payment_id s2 evs hrun
  rw [hp] at hq
  cases hq
  refine ⟨?_, ?_, ?_⟩
  · rw [hs2]; simp [RPStore.setPayment]
  · intro j hj
    rw [hs2]
    simp only [RPStore.setPayment]
    rw [if_neg hj]
  · rw [hs2]; rfl

/-- Concrete active payment for the C10 witness. -/
def c10p : RecurringPayment := ⟨3, 4, 5, 10, 60, 100, true⟩

/-- Concrete store holding the active `c10p` under id 1 (and nothing else). -/
def c10s : RPStore := ⟨fun id => if id = 1 then some c10p else none, 1⟩

/-- Store after canceling `c10p`. -/
def c10s2 : RPStore := c10s.setPayment 1 { c10p with active := false }

/-- Witness for C10: the concrete cancel flips only the `active` field and
leaves id 2 and the counter unchanged. -/
theorem cancel_payment_frame_witness :
    c10s2.payments 1 = some { c10p with active := false } ∧
    c10s2.payments 2 = c10s.payments 2 ∧
    c10s2.paymentCount = c10s.paymentCount := by
  have h := cancel_payment_frame (fun _ => true) c10s 1 c10p c10s2
    [RPEvent.canceled 1 3] rfl rfl
  exact ⟨h.1, h.2.1 2 (by decide), h.2.2⟩

/-- Payment record with a non-positive amount, storable as far as the
contract's storage types are concerned. -/
def c2p : RecurringPayment := ⟨3, 4, 5, 0, 1, 0, true⟩

/-- Store holding `c2p` under id 1. -/
def c2s : RPStore := ⟨fun id => if id = 1 then some c2p else none, 1⟩

/-- C2 counterexample: `execute_payment` publishes its `executed`
notification with no validation step at all — here it completes
successfully while publishing a payload whose amount is `0`, which
violates the "amounts positive" invariant that a validating emitter
(like those in the events module) would have rejected by aborting the
operation. This falsifies the claim that every notification of every
component is validated against its own invariants immediately before
publication. -/
theorem rp_publishes_unvalidated :
    (execute_payment c2s 5 1).map (fun r => r.2.1) = some [RPEvent.executed 1 0 6] ∧
    ¬ 0 < (0 : Int) := by
  exact ⟨rfl, by decide⟩

/-! ## Event schema and validating emitters (contracts/events/src/gas.rs) -/

/-- Payload of the initialization notification. -/
structure InitializeEventData where
  admin : Addr
  reward_rate : Nat
  min_stake : Int
  timestamp : Nat
  deriving DecidableEq, Repr

/-- Payload of the stake notification. -/
structure StakeEventData where
  staker : Addr
  amount : Int
  total : Int
  timestamp : Nat
  deriving DecidableEq, Repr

/-- Payload of the unstake notification. -/
structure UnstakeEventData where
  staker : Addr
  amount : Int
  reward : Int
  remaining : Int
  timestamp : Nat
  deriving DecidableEq, Repr

/-- Payload of the escrow-locked notification. -/
structure EscrowLockedEventData where
  depositor : Addr
  beneficiary : Addr
  amount : Int
  unlock_ts : Nat
  timestamp : Nat
  deriving DecidableEq, Repr

/-- Payload of the escrow-released notification. -/
structure EscrowReleasedEventData where
  beneficiary : Addr
  amount : Int
  timestamp : Nat
  deriving DecidableEq, Repr

/-- Payload of the aggregate batch-reward notification. -/
structure BatchRewardEventData where
  recipients : Nat
  total_rewards : Int
  timestamp : Nat
  deriving DecidableEq, Repr

/-- Validation guard of the initialization notification (the source asserts
and panics; a failing assert aborts the operation). -/
def validate_initialize_event (d : InitializeEventData) : Prop :=
  0 < d.reward_rate ∧ 0 < d.min_stake

instance (d : InitializeEventData) : Decidable (validate_initialize_event d) := by
  unfold validate_initialize_event; infer_instance

/-- Validation guard of the stake notification. -/
def validate_stake_event (d : StakeEventData) : Prop :=
  0 < d.amount ∧ d.amount ≤ d.total

instance (d : StakeEventData) : Decidable (validate_stake_event d) := by
  unfold validate_stake_event; infer_instance

/-- Validation guard of the unstake notification. -/
def validate_unstake_event (d : UnstakeEventData) : Prop :=
  0 < d.amount ∧ 0 ≤ d.reward ∧ 0 ≤ d.remaining

instance (d : UnstakeEventData) : Decidable (validate_unstake_event d) := by
  unfold validate_unstake_event; infer_instance

/-- Validation guard of the escrow-locked notification. -/
def validate_escrow_locked_event (d : EscrowLockedEventData) : Prop :=
  0 < d.amount ∧ d.timestamp < d.unlock_ts

instance (d : EscrowLockedEventData) : Decidable (validate_escrow_locked_event d) := by
  unfold validate_escrow_locked_event; infer_instance

/-- Validation guard of the escrow-released notification. -/
def validate_escrow_released_event (d : EscrowReleasedEventData) : Prop :=
  0 < d.amount

instance (d : EscrowReleasedEventData) : Decidable (validate_escrow_released_event d) := by
  unfold validate_escrow_released_event; infer_instance

/-- Validation guard of the batch-reward notification. -/
def validate_batch_reward_event (d : BatchRewardEventData) : Prop :=
  0 < d.recipients ∧ 0 < d.total_rewards

instance (d : BatchRewardEventData) : Decidable (validate_batch_reward_event d) := by
  unfold validate_batch_reward_event; infer_instance

/-- Emit helper `emit_initialize`: validates, then publishes; a failing
validation aborts (`none`). -/
def emit_initialize_event (d : InitializeEventData) : Option InitializeEventData :=
  if validate_initialize_event d then some d else none

/-- Emit helper `emit_stake`: validates, then publishes. -/
def emit_stake (d : StakeEventData) : Option StakeEventData :=
  if validate_stake_event d then some d else none

/-- Emit helper `emit_unstake`: validates, then publishes. -/
def emit_unstake (d : UnstakeEventData) : Option UnstakeEventData :=
  if validate_unstake_event d then some d else none

/-- Emit helper `emit_escrow_locked`: validates, then publishes. -/
def emit_escrow_locked (d : EscrowLockedEventData) : Option EscrowLockedEventData :=
  if validate_escrow_locked_event d then some d else none

/-- Emit helper `emit_escrow_released`: validates, then publishes. -/
def emit_escrow_released (d : EscrowReleasedEventData) : Option EscrowReleasedEventData :=
  if validate_escrow_released_event d then some d else none

/-- Emit helper `emit_batch_reward`: validates, then publishes. -/
def emit_batch_reward (d : BatchRewardEventData) : Option BatchRewardEventData :=
  if validate_batch_reward_event d then some d else none

/-- C2 (amended): every emit helper of the events module validates its
payload immediately before publication — a payload it publishes satisfies
the validator's invariants, and a payload failing them makes the helper
abort the triggering operation (`none`) instead of publishing. -/
theorem emit_helpers_validate_before_publish
    (d1 : InitializeEventData) (d2 : StakeEventData) (d3 : UnstakeEventData)
    (d4 : EscrowLockedEventData) (d5 : EscrowReleasedEventData)
    (d6 : BatchRewardEventData) :
    (∀ e, emit_initialize_event d1 = some e → 0 < e.reward_rate ∧ 0 < e.min_stake) ∧
    (¬ (0 < d1.reward_rate ∧ 0 < d1.min_stake) → emit_initialize_event d1 = none) ∧
    (∀ e, emit_stake d2 = some e → 0 < e.amount ∧ e.amount ≤ e.total) ∧
    (¬ (0 < d2.amount ∧ d2.amount ≤ d2.total) → emit_stake d2 = none) ∧
    (∀ e, emit_unstake d3 = some e → 0 < e.amount ∧ 0 ≤ e.reward ∧ 0 ≤ e.remaining) ∧
    (¬ (0 < d3.amount ∧ 0 ≤ d3.reward ∧ 0 ≤ d3.remaining) → emit_unstake d3 = none) ∧
    (∀ e, emit_escrow_locked d4 = some e → 0 < e.amount ∧ e.timestamp < e.unlock_ts) ∧
    (¬ (0 < d4.amount ∧ d4.timestamp < d4.unlock_ts) → emit_escrow_locked d4 = none) ∧
    (∀ e, emit_escrow_released d5 = some e → 0 < e.amount) ∧
    (¬ 0 < d5.amount → emit_escrow_released d5 = none) ∧
    (∀ e, emit_batch_reward d6 = some e → 0 < e.recipients ∧ 0 < e.total_rewards) ∧
    (¬ (0 < d6.recipients ∧ 0 < d6.total_rewards) → emit_batch_reward d6 = none) := by
  refine ⟨?_, ?_, ?_, ?_, ?_, ?_, ?_, ?_, ?_, ?_, ?_, ?_⟩
  · intro e he
    unfold emit_initialize_event at he
    by_cases h : validate_initialize_event d1
    · rw [if_pos h] at he; cases he; exact h
    · rw [if_neg h] at he; exact absurd he (by simp)
  · intro h
    unfold emit_initialize_event
    rw [if_neg (by exact h)]
  · intro e he
    unfold emit_stake at he
    by_cases h : validate_stake_event d2
    · rw [if_pos h] at he; cases he; exact h
    · rw [if_neg h] at he; exact absurd he (by simp)
  · intro h
    unfold emit_stake
    rw [if_neg (by exact h)]
  · intro e he
    unfold emit_unstake at he
    by_cases h : validate_unstake_event d3
    · rw [if_pos h] at he; cases he; exact h
    · rw [if_neg h] at he; exact absurd he (by simp)
  · intro h
    unfold emit_unstake
    rw [if_neg (by exact h)]
  · intro e he
    unfold emit_escrow_locked at he
    by_cases h : validate_escrow_locked_event d4
    · rw [if_pos h] at he; cases he; exact h
    · rw [if_neg h] at he; exact absurd he (by simp)
  · intro h
    unfold emit_escrow_locked
    rw [if_neg (by exact h)]
  · intro e he
    unfold emit_escrow_released at he
    by_cases h : validate_escrow_released_event d5
    · rw [if_pos h] at he; cases he; exact h
    · rw [if_neg h] at he; exact absurd he (by simp)
  · intro h
    unfold emit_escrow_released
    rw [if_neg (by exact h)]
  · intro e he
    unfold emit_batch_reward at he
    by_cases h : validate_batch_reward_event d6
    · rw [if_pos h] at he; cases he; exact h
    · rw [if_neg h] at he; exact absurd he (by simp)
  · intro h
    unfold emit_batch_reward
    rw [if_neg (by exact h)]

/-- Witness for the amended C2: a batch payload with zero recipients is
rejected — the emit helper aborts rather than publishing it. -/
theorem emit_helpers_validate_before_publish_witness :
    emit_batch_reward ⟨0, 5, 0⟩ = none := by
  have h := emit_helpers_validate_before_publish
    ⟨7, 1, 1, 0⟩ ⟨3, 1, 1, 0⟩ ⟨3, 1, 0, 0, 0⟩ ⟨3, 4, 1, 2, 1⟩ ⟨4, 1, 0⟩ ⟨0, 5, 0⟩
  exact h.2.2.2.2.2.2.2.2.2.2.2 (by decide)

/-! ## Escrow engine (contracts/escrow/src/gas.rs) -/

/-- Modelled from the spec: the `Config` type is declared in the staking
contract source, which is absent from `src/`; its fields follow spec §3
(Configuration) and the field accesses in `escrow/src/gas.rs` and
`batch-rewards/src/gas.rs` (`config.admin`, `config.token`,
`config.reward_rate`, `config.min_stake`). -/
structure Config where
  admin : Addr
  token : Addr
  reward_rate : Nat
  min_stake : Int
  deriving DecidableEq, Repr

/-- Packed escrow record (`EscrowEntry` in `escrow/src/gas.rs`). -/
structure EscrowEntry where
  depositor : Addr
  beneficiary : Addr
  amount : Int
  unlock_ts : Nat
  deriving DecidableEq, Repr

/-- Storage visible to the escrow contract: the persistent
`EscrowKey::Entry(depositor, id)` map and the instance `Config`. -/
structure EscrowState where
  escrows : Addr → Nat → Option EscrowEntry
  config : Option Config

/-- One storage/transfer/notification action of the escrow contract, in
execution order. -/
inductive EAction where
  | removeEntry (depositor : Addr) (escrow_id : Nat)
  | setEntry (depositor : Addr) (escrow_id : Nat) (e : EscrowEntry)
  | doTransfer (source dest : Addr) (amount : Int)
  | emitLockedEv (d : EscrowLockedEventData)
  | emitReleasedEv (d : EscrowReleasedEventData)
  deriving DecidableEq, Repr

/-- Store update that deletes the `(depositor, escrow_id)` slot. -/
def EscrowState.removeKey (s : EscrowState) (depositor : Addr) (escrow_id : Nat) :
    EscrowState :=
  { s with escrows := fun d i =>
      if d = depositor ∧ i = escrow_id then none else s.escrows d i }

/-- Store update that writes entry `e` under `(depositor, escrow_id)`. -/
def EscrowState.setKey (s : EscrowState) (depositor : Addr) (escrow_id : Nat)
    (e : EscrowEntry) : EscrowState :=
  { s with escrows := fun d i =>
      if d = depositor ∧ i = escrow_id then some e else s.escrows d i }

/-- `lock` from `escrow/src/gas.rs`: requires depositor authorization,
`amount > 0`, `unlock_ts` strictly in the future and no existing entry
under `(depositor, escrow_id)`; reads the config, transfers `amount` from
the depositor to the contract, writes the packed entry and publishes a
locked notification through the validating emitter. -/
def lock (contract : Addr) (auth : Addr → Bool) (s : EscrowState) (now : Nat)
    (depositor beneficiary : Addr) (amount : Int) (unlock_ts : Nat) (escrow_id : Nat) :
    Option (EscrowState × List EAction) :=
  if ¬ auth depositor then none
  else if ¬ 0 < amount then none
  else if ¬ now < unlock_ts then none
  else if (s.escrows depositor escrow_id).isSome then none
  else match s.config with
    | none => none
    | some _config =>
      match emit_escrow_locked ⟨depositor, beneficiary, amount, unlock_ts, now⟩ with
      | none => none
      | some d =>
        some (s.setKey depositor escrow_id ⟨depositor, beneficiary, amount, unlock_ts⟩,
          [EAction.doTransfer depositor contract amount,
           EAction.setEntry depositor escrow_id ⟨depositor, beneficiary, amount, unlock_ts⟩,
           EAction.emitLockedEv d])

/-- `release` from `escrow/src/gas.rs`: requires the entry to exist and
`now ≥ unlock_ts` (no authorization); reads the config, removes the storage
slot first, then transfers the recorded amount from the contract to the
recorded beneficiary, and publishes a released notification through the
validating emitter. -/
def release (contract : Addr) (s : EscrowState) (now : Nat)
    (depositor : Addr) (escrow_id : Nat) :
    Option (EscrowState × List EAction) :=
  match s.escrows depositor escrow_id with
  | none => none
  | some entry =>
    if now < entry.unlock_ts then none
    else match s.config with
      | none => none
      | some _config =>
        match emit_escrow_released ⟨entry.beneficiary, entry.amount, now⟩ with
        | none => none
        | some d =>
          some (s.removeKey depositor escrow_id,
            [EAction.removeEntry depositor escrow_id,
             EAction.doTransfer contract entry.beneficiary entry.amount,
             EAction.emitReleasedEv d])

/-- `get_escrow` from `escrow/src/gas.rs`: pure read. -/
def get_escrow (s : EscrowState) (depositor : Addr) (escrow_id : Nat) :
    Option EscrowEntry :=
  s.escrows depositor escrow_id

/-- Inversion of a successful `lock`: recovers the precondition checks and
the exact resulting state and action trace. -/
theorem lock_spec
    (contract : Addr) (auth : Addr → Bool) (s : EscrowState) (now : Nat)
    (depositor beneficiary : Addr) (amount : Int) (unlock_ts escrow_id : Nat)
    (s1 : EscrowState) (acts : List EAction)
    (hlock : lock contract auth s now depositor beneficiary amount unlock_ts escrow_id
      = some (s1, acts)) :
    auth depositor = true ∧ 0 < amount ∧ now < unlock_ts ∧
    s.escrows depositor escrow_id = none ∧ s.config.isSome = true ∧
    s1 = s.setKey depositor escrow_id ⟨depositor, beneficiary, amount, unlock_ts⟩ ∧
    acts = [EAction.doTransfer depositor contract amount,
            EAction.setEntry depositor escrow_id ⟨depositor, beneficiary, amount, unlock_ts⟩,
            EAction.emitLockedEv ⟨depositor, beneficiary, amount, unlock_ts, now⟩] := by
  unfold lock at hlock
  by_cases h1 : auth depositor
  case neg => simp [h1] at hlock
  rw [if_neg (by simpa using h1)] at hlock
  by_cases h2 : 0 < amount
  case neg => rw [if_pos h2] at hlock; exact absurd hlock (by simp)
  rw [if_neg (by simpa using h2)] at hlock
  by_cases h3 : now < unlock_ts
  case neg => rw [if_pos h3] at hlock; exact absurd hlock (by simp)
  rw [if_neg (by simpa using h3)] at hlock
  cases hdup : s.escrows depositor escrow_id with
  | some e => rw [hdup] at hlock; exact absurd hlock (by simp)
  | none =>
    rw [hdup] at hlock
    simp only [Option.isSome_none] at hlock
    rw [if_neg (by simp)] at hlock
    cases hcfg : s.config with
    | none => rw [hcfg] at hlock; exact absurd hlock (by simp)
    | some config =>
      rw [hcfg] at hlock
      simp only [emit_escrow_locked,
        if_pos (show validate_escrow_locked_event ⟨depositor, beneficiary, amount, unlock_ts, now⟩
          from ⟨h2, h3⟩)] at hlock
      simp only [Option.some.injEq, Prod.mk.injEq] at hlock
      exact ⟨h1, h2, h3, rfl, rfl, hlock.1.symm, hlock.2.symm⟩

/-- C3: after a successful `lock`, calling `release` at any time at or
after `unlock_ts` succeeds; its action sequence removes the storage entry
strictly before the outward transfer, the transfer moves exactly the
locked amount to the beneficiary recorded at lock time, and a subsequent
`get_escrow` on the deleted key returns `none`. -/
theorem release_removes_entry_before_transfer
    (contract : Addr) (auth : Addr → Bool) (s0 : EscrowState) (now t : Nat)
    (depositor beneficiary : Addr) (amount : Int) (unlock_ts escrow_id : Nat)
    (s1 : EscrowState) (acts : List EAction)
    (hlock : lock contract auth s0 now depositor beneficiary amount unlock_ts escrow_id
      = some (s1, acts))
    (ht : unlock_ts ≤ t) :
    release contract s1 t depositor escrow_id =
      some (s1.removeKey depositor escrow_id,
        [EAction.removeEntry depositor escrow_id,
         EAction.doTransfer contract beneficiary amount,
         EAction.emitReleasedEv ⟨beneficiary, amount, t⟩]) ∧
    get_escrow (s1.removeKey depositor escrow_id) depositor escrow_id = none := by
  obtain ⟨-, hamt, -, -, hcfg, hs1, -⟩ :=
    lock_spec contract auth s0 now depositor beneficiary amount unlock_ts escrow_id
      s1 acts hlock
  have hlook : s1.escrows depositor escrow_id =
      some ⟨depositor, beneficiary, amount, unlock_ts⟩ := by
    rw [hs1]; simp [EscrowState.setKey]
  have hcfg1 : s1.config = s0.config := by rw [hs1]; rfl
  constructor
  · cases hc : s0.config with
    | none => rw [hc] at hcfg; simp at hcfg
    | some config =>
      simp only [release, hlook, hcfg1, hc]
      rw [if_neg (by omega)]
      simp only [emit_escrow_released,
        if_pos (show validate_escrow_released_event ⟨beneficiary, amount, t⟩ from hamt)]
  · simp [get_escrow, EscrowState.removeKey]

/-- Concrete lock scenario used to witness C3. -/
def c3s0 : EscrowState := ⟨fun _ _ => none, some ⟨7, 9, 1, 1⟩⟩

/-- State after the concrete lock (depositor 3, beneficiary 4, amount 5,
unlock at 20, id 1). -/
def c3s1 : EscrowState := c3s0.setKey 3 1 ⟨3, 4, 5, 20⟩

/-- Witness for C3: the concrete lock-then-release run deletes the entry
with the remove action ahead of the transfer of exactly the locked amount. -/
theorem release_removes_entry_before_transfer_witness :
    release 99 c3s1 25 3 1 =
      some (c3s1.removeKey 3 1,
        [EAction.removeEntry 3 1,
         EAction.doTransfer 99 4 5,
         EAction.emitReleasedEv ⟨4, 5, 25⟩]) ∧
    get_escrow (c3s1.removeKey 3 1) 3 1 = none := by
  exact release_removes_entry_before_transfer 99 (fun _ => true) c3s0 10 25
    3 4 5 20 1 c3s1
    [EAction.doTransfer 3 99 5, EAction.setEntry 3 1 ⟨3, 4, 5, 20⟩,
     EAction.emitLockedEv ⟨3, 4, 5, 20, 10⟩]
    rfl (by omega)

/-- C6: releasing an existing escrow strictly before its `unlock_ts` fails
the whole operation (no transfer, no state change), and the entry is still
readable unchanged. -/
theorem release_before_unlock_fails
    (contract : Addr) (s : EscrowState) (now : Nat)
    (depositor : Addr) (escrow_id : Nat) (e : EscrowEntry)
    (he : s.escrows depositor escrow_id = some e)
    (hlt : now < e.unlock_ts) :
    release contract s now depositor escrow_id = none ∧
    get_escrow s depositor escrow_id = some e := by
  constructor
  · simp only [release, he]
    rw [if_pos hlt]
  · simpa [get_escrow] using he

/-- Concrete state used to witness C6. -/
def c6s : EscrowState := ⟨fun d i => if d = 3 ∧ i = 1 then some ⟨3, 4, 5, 20⟩ else none,
  some ⟨7, 9, 1, 1⟩⟩

/-- Witness for C6: releasing the concrete entry at time 19 < 20 fails and
leaves the entry readable. -/
theorem release_before_unlock_fails_witness :
    release 99 c6s 19 3 1 = none ∧ get_escrow c6s 3 1 = some ⟨3, 4, 5, 20⟩ := by
  exact release_before_unlock_fails 99 c6s 19 3 1 ⟨3, 4, 5, 20⟩ (by decide) (by decide)

/-- C7: a `lock` under a `(depositor, escrow_id)` pair that already holds
an entry fails whatever the other arguments are and leaves the existing
entry unchanged; moreover any successful `lock` had `amount > 0`,
`unlock_ts` strictly in the future and no pre-existing entry. -/
theorem lock_requires_fresh_id
    (contract : Addr) (auth : Addr → Bool) (s : EscrowState) (now : Nat)
    (depositor beneficiary : Addr) (amount : Int) (unlock_ts escrow_id : Nat) :
    (∀ e, s.escrows depositor escrow_id = some e →
      lock contract auth s now depositor beneficiary amount unlock_ts escrow_id = none ∧
      get_escrow s depositor escrow_id = some e) ∧
    (∀ s2 acts,
      lock contract auth s now depositor beneficiary amount unlock_ts escrow_id
        = some (s2, acts) →
      0 < amount ∧ now < unlock_ts ∧ s.escrows depositor escrow_id = none) := by
  constructor
  · intro e he
    refine ⟨?_, by simpa [get_escrow] using he⟩
    unfold lock
    split
    · rfl
    · split
      · rfl
      · split
        · rfl
        · rw [if_pos (by rw [he]; rfl)]
  · intro s2 acts hrun
    obtain ⟨-, h2, h3, hdup, -⟩ :=
      lock_spec contract auth s now depositor beneficiary amount unlock_ts escrow_id
        s2 acts hrun
    exact ⟨h2, h3, hdup⟩

/-- Witness for C7: locking id 1 for depositor 3 again in the concrete
state fails and keeps the original entry. -/
theorem lock_requires_fresh_id_witness :
    lock 99 (fun _ => true) c6s 10 3 8 77 50 1 = none ∧
    get_escrow c6s 3 1 = some ⟨3, 4, 5, 20⟩ := by
  exact (lock_requires_fresh_id 99 (fun _ => true) c6s 10 3 8 77 50 1).1
    ⟨3, 4, 5, 20⟩ (by decide)

/-! ## Batch rewards (contracts/batch-rewards/src/gas.rs) -/

/-- Modelled from the spec: the per-account stake record (`StakeEntry`) is
declared in the staking contract source absent from `src/`; its fields
follow the accesses `entry.balance` / `entry.staked_at` in
`batch-rewards/src/gas.rs` and spec §3 (StakePosition), and the Rust
`Default` derive used by `unwrap_or_default()` zeroes both fields. -/
structure StakeEntry where
  balance : Int
  staked_at : Nat
  deriving DecidableEq, Repr

/-- Modelled from the spec: `StakingContract::compute_reward` lives in the
staking contract source absent from `src/`.  Spec §4.1 specifies a pure
function proportional to `balance * rate * (now - staked_at)` under floor
integer arithmetic with a basis-points-per-year rate unit (spec §8 pins a
10000 stake at rate 1200 over 365 days to a reward of about 1200);
`31536000` is the number of seconds in 365 days.  The batch claims proved
below depend only on this function being shared between
`distribute_rewards` and `preview_rewards`, not on its exact formula. -/
def compute_reward (balance : Int) (staked_at now : Nat) (rate : Nat) : Int :=
  balance * (rate : Int) * ((now - staked_at : Nat) : Int) / (10000 * 31536000)

/-- Storage visible to the batch-reward contract: the persistent
`DataKey::StakeEntry(addr)` map and the instance `Config`. -/
structure BRState where
  stakes : Addr → Option StakeEntry
  config : Option Config

/-- Per-account sum the loop body of `distribute_rewards` computes: the
time-weighted reward of the account's current record (zero unless the
balance is positive) plus that account's bonus. -/
def userReward (rate now : Nat) (bonus : Int) (e0 : Option StakeEntry) : Int :=
  (if 0 < (e0.getD ⟨0, 0⟩).balance then
    compute_reward (e0.getD ⟨0, 0⟩).balance (e0.getD ⟨0, 0⟩).staked_at now rate
  else 0) + bonus

/-- One iteration of the `distribute_rewards` loop on one account record:
returns the record to store back, the amount credited and the recipient
count increment (skipping — no write — when the account has no stake and
no bonus, or when the computed sum is not positive). -/
def stepEntry (rate now : Nat) (bonus : Int) (e0 : Option StakeEntry) :
    Option StakeEntry × Int × Nat :=
  if (e0.getD ⟨0, 0⟩).balance = 0 ∧ bonus = 0 then (e0, 0, 0)
  else if userReward rate now bonus e0 ≤ 0 then (e0, 0, 0)
  else (some ⟨(e0.getD ⟨0, 0⟩).balance + userReward rate now bonus e0, now⟩,
    userReward rate now bonus e0, 1)

/-- Store after one loop iteration (write-back at one key only). -/
def applyStep (rate now : Nat) (a : Addr) (b : Int)
    (st : Addr → Option StakeEntry) : Addr → Option StakeEntry :=
  fun x => if x = a then (stepEntry rate now b (st a)).1 else st x

/-- The `distribute_rewards` loop over the zipped (staker, bonus) list:
returns the final store, the running `total_rewards` and the running
`recipients` count. -/
def distLoop (rate now : Nat) : List (Addr × Int) → (Addr → Option StakeEntry) →
    (Addr → Option StakeEntry) × Int × Nat
  | [], st => (st, 0, 0)
  | (a, b) :: rest, st =>
    ((distLoop rate now rest (applyStep rate now a b st)).1,
     (stepEntry rate now b (st a)).2.1 +
       (distLoop rate now rest (applyStep rate now a b st)).2.1,
     (stepEntry rate now b (st a)).2.2 +
       (distLoop rate now rest (applyStep rate now a b st)).2.2)

/-- `distribute_rewards` from `batch-rewards/src/gas.rs`: requires admin
authorization, equal-length non-empty lists and the caller to be the
configured admin; reads the config once, runs the loop, and publishes one
aggregate notification through the validating emitter exactly when at
least one account was credited. -/
def distribute_rewards (auth : Addr → Bool) (s : BRState) (now : Nat)
    (admin : Addr) (stakers : List Addr) (bonus_amounts : List Int) :
    Option (BRState × List BatchRewardEventData) :=
  if ¬ auth admin then none
  else if ¬ stakers.length = bonus_amounts.length then none
  else if stakers.isEmpty then none
  else match s.config with
    | none => none
    | some config =>
      if ¬ config.admin = admin then none
      else if 0 < (distLoop config.reward_rate now (stakers.zip bonus_amounts) s.stakes).2.2 then
        match emit_batch_reward
          ⟨(distLoop config.reward_rate now (stakers.zip bonus_amounts) s.stakes).2.2,
           (distLoop config.reward_rate now (stakers.zip bonus_amounts) s.stakes).2.1,
           now⟩ with
        | none => none
        | some d =>
          some ({ s with stakes := (distLoop config.reward_rate now (stakers.zip bonus_amounts) s.stakes).1 }, [d])
      else
        some ({ s with stakes := (distLoop config.reward_rate now (stakers.zip bonus_amounts) s.stakes).1 }, [])

/-- `preview_rewards` from `batch-rewards/src/gas.rs`: reads the config,
then maps every account to its current time-weighted reward (zero unless
the balance is positive).  It returns only the list — no store is written
and no notification is published. -/
def preview_rewards (s : BRState) (now : Nat) (stakers : List Addr) :
    Option (List Int) :=
  match s.config with
  | none => none
  | some config =>
    some (stakers.map (fun staker =>
      if 0 < ((s.stakes staker).getD ⟨0, 0⟩).balance then
        compute_reward ((s.stakes staker).getD ⟨0, 0⟩).balance
          ((s.stakes staker).getD ⟨0, 0⟩).staked_at now config.reward_rate
      else 0))

/-- Stored balance of an account, an absent record reading as zero. -/
def balOf (st : Addr → Option StakeEntry) (a : Addr) : Int :=
  ((st a).getD ⟨0, 0⟩).balance

/-- A positive-balance record accrues a non-negative time-weighted reward. -/
theorem compute_reward_nonneg (balance : Int) (staked_at now rate : Nat)
    (hb : 0 ≤ balance) : 0 ≤ compute_reward balance staked_at now rate := by
  unfold compute_reward
  have h1 : (0 : Int) ≤ balance * (rate : Int) * ((now - staked_at : Nat) : Int) := by
    have := Int.natCast_nonneg rate
    have := Int.natCast_nonneg (now - staked_at)
    positivity
  exact Int.ediv_nonneg h1 (by norm_num)

/-- The per-account sum is non-negative whenever the bonus is. -/
theorem userReward_nonneg (rate now : Nat) (bonus : Int) (e0 : Option StakeEntry)
    (hb : 0 ≤ bonus) : 0 ≤ userReward rate now bonus e0 := by
  unfold userReward
  split
  · have := compute_reward_nonneg ((e0.getD ⟨0, 0⟩).balance)
      ((e0.getD ⟨0, 0⟩).staked_at) now rate (by omega)
    omega
  · omega

/-- `stepEntry` either credits the positive computed sum or leaves the
record alone. -/
theorem stepEntry_eq (rate now : Nat) (bonus : Int) (e0 : Option StakeEntry) :
    stepEntry rate now bonus e0 =
      if 0 < userReward rate now bonus e0 then
        (some ⟨(e0.getD ⟨0, 0⟩).balance + userReward rate now bonus e0, now⟩,
          userReward rate now bonus e0, 1)
      else (e0, 0, 0) := by
  unfold stepEntry
  by_cases h1 : (e0.getD ⟨0, 0⟩).balance = 0 ∧ bonus = 0
  · rw [if_pos h1]
    have hw : userReward rate now bonus e0 = 0 := by
      unfold userReward
      rw [if_neg (by omega), h1.2]
      omega
    rw [if_neg (by omega)]
  · rw [if_neg h1]
    by_cases h2 : userReward rate now bonus e0 ≤ 0
    · rw [if_pos h2, if_neg (by omega)]
    · rw [if_neg h2, if_pos (by omega)]

/-- A skipped iteration (recipient increment 0) wrote nothing and credited
nothing. -/
theorem stepEntry_skip (rate now : Nat) (bonus : Int) (e0 : Option StakeEntry)
    (h : (stepEntry rate now bonus e0).2.2 = 0) :
    (stepEntry rate now bonus e0).1 = e0 ∧ (stepEntry rate now bonus e0).2.1 = 0 := by
  rw [stepEntry_eq] at h ⊢
  split at h
  · simp at h
  · rename_i hw
    rw [if_neg hw]
    exact ⟨rfl, rfl⟩

/-- A crediting iteration stored the old balance plus the positive sum. -/
theorem stepEntry_credit (rate now : Nat) (bonus : Int) (e0 : Option StakeEntry)
    (h : (stepEntry rate now bonus e0).2.2 ≠ 0) :
    0 < userReward rate now bonus e0 ∧
    (stepEntry rate now bonus e0).1 =
      some ⟨(e0.getD ⟨0, 0⟩).balance + userReward rate now bonus e0, now⟩ ∧
    (stepEntry rate now bonus e0).2.1 = userReward rate now bonus e0 := by
  rw [stepEntry_eq] at h ⊢
  split at h
  · rename_i hw
    rw [if_pos hw]
    exact ⟨hw, rfl, rfl⟩
  · simp at h

/-- Each iteration credits a non-negative amount, and a positive recipient
increment means a positive credit. -/
theorem stepEntry_total (rate now : Nat) (bonus : Int) (e0 : Option StakeEntry) :
    0 ≤ (stepEntry rate now bonus e0).2.1 ∧
    (0 < (stepEntry rate now bonus e0).2.2 → 0 < (stepEntry rate now bonus e0).2.1) := by
  rw [stepEntry_eq]
  split
  · rename_i hw
    exact ⟨le_of_lt hw, fun _ => hw⟩
  · exact ⟨le_refl _, fun h => absurd h (by simp)⟩

/-- `applyStep` leaves every other key unchanged. -/
theorem applyStep_ne (rate now : Nat) (a : Addr) (b : Int)
    (st : Addr → Option StakeEntry) (x : Addr) (hx : x ≠ a) :
    applyStep rate now a b st x = st x := by
  unfold applyStep
  rw [if_neg hx]

/-- A skipped iteration leaves the whole store unchanged. -/
theorem applyStep_skip (rate now : Nat) (a : Addr) (b : Int)
    (st : Addr → Option StakeEntry)
    (h : (stepEntry rate now b (st a)).2.2 = 0) (x : Addr) :
    applyStep rate now a b st x = st x := by
  unfold applyStep
  by_cases hx : x = a
  · subst hx
    rw [if_pos rfl]
    exact (stepEntry_skip rate now b (st x) h).1
  · rw [if_neg hx]

/-- One iteration never lowers any stored balance. -/
theorem applyStep_bal_le (rate now : Nat) (a : Addr) (b : Int)
    (st : Addr → Option StakeEntry) (x : Addr) :
    balOf st x ≤ balOf (applyStep rate now a b st) x := by
  simp only [applyStep, balOf]
  by_cases hx : x = a
  · subst hx
    rw [if_pos rfl, stepEntry_eq]
    split
    · rename_i hw
      simp only [Option.getD_some]
      omega
    · exact le_refl _
  · rw [if_neg hx]

/-- Keys outside the batch are untouched by the loop. -/
theorem distLoop_notmem (rate now : Nat) (x : Addr) :
    ∀ (l : List (Addr × Int)) (st : Addr → Option StakeEntry),
      x ∉ l.map Prod.fst → (distLoop rate now l st).1 x = st x := by
  intro l
  induction l with
  | nil => intro st _; rfl
  | cons hd tl ih =>
    intro st hx
    obtain ⟨a, b⟩ := hd
    simp only [List.map_cons, List.mem_cons, not_or] at hx
    simp only [distLoop]
    rw [ih _ hx.2]
    exact applyStep_ne rate now a b st x hx.1

/-- The loop never lowers any stored balance. -/
theorem distLoop_bal_le (rate now : Nat) (x : Addr) :
    ∀ (l : List (Addr × Int)) (st : Addr → Option StakeEntry),
      balOf st x ≤ balOf (distLoop rate now l st).1 x := by
  intro l
  induction l with
  | nil => intro st; exact le_refl _
  | cons hd tl ih =>
    intro st
    obtain ⟨a, b⟩ := hd
    simp only [distLoop]
    calc balOf st x ≤ balOf (applyStep rate now a b st) x :=
          applyStep_bal_le rate now a b st x
      _ ≤ balOf (distLoop rate now tl (applyStep rate now a b st)).1 x := ih _

/-- A run that counted no recipients wrote nothing at all. -/
theorem distLoop_recips_zero (rate now : Nat) (x : Addr) :
    ∀ (l : List (Addr × Int)) (st : Addr → Option StakeEntry),
      (distLoop rate now l st).2.2 = 0 → (distLoop rate now l st).1 x = st x := by
  intro l
  induction l with
  | nil => intro st _; rfl
  | cons hd tl ih =>
    intro st h
    obtain ⟨a, b⟩ := hd
    simp only [distLoop] at h ⊢
    have hc1 : (stepEntry rate now b (st a)).2.2 = 0 := by omega
    have hc2 : (distLoop rate now tl (applyStep rate now a b st)).2.2 = 0 := by omega
    rw [ih _ hc2]
    exact applyStep_skip rate now a b st hc1 x

/-- A run that counted a recipient strictly raised some stored balance. -/
theorem distLoop_recips_pos (rate now : Nat) :
    ∀ (l : List (Addr × Int)) (st : Addr → Option StakeEntry),
      0 < (distLoop rate now l st).2.2 →
      ∃ x, balOf st x < balOf (distLoop rate now l st).1 x := by
  intro l
  induction l with
  | nil => intro st h; exact absurd h (by simp [distLoop])
  | cons hd tl ih =>
    intro st h
    obtain ⟨a, b⟩ := hd
    simp only [distLoop] at h ⊢
    by_cases hc1 : (stepEntry rate now b (st a)).2.2 = 0
    · have hc2 : 0 < (distLoop rate now tl (applyStep rate now a b st)).2.2 := by omega
      obtain ⟨x, hx⟩ := ih _ hc2
      refine ⟨x, ?_⟩
      have heq : balOf (applyStep rate now a b st) x = balOf st x := by
        unfold balOf
        rw [applyStep_skip rate now a b st hc1 x]
      rw [← heq]
      exact hx
    · obtain ⟨hw, h1, -⟩ := stepEntry_credit rate now b (st a) hc1
      refine ⟨a, ?_⟩
      have h2 : balOf (applyStep rate now a b st) a = balOf st a +
          userReward rate now b (st a) := by
        simp only [applyStep, balOf, if_pos trivial]
        rw [h1]
        simp
      have h3 := distLoop_bal_le rate now a tl (applyStep rate now a b st)
      omega

/-- The running total is non-negative, and positive as soon as some
recipient was counted. -/
theorem distLoop_total (rate now : Nat) :
    ∀ (l : List (Addr × Int)) (st : Addr → Option StakeEntry),
      0 ≤ (distLoop rate now l st).2.1 ∧
      (0 < (distLoop rate now l st).2.2 → 0 < (distLoop rate now l st).2.1) := by
  intro l
  induction l with
  | nil => intro st; exact ⟨le_refl _, fun h => absurd h (by simp [distLoop])⟩
  | cons hd tl ih =>
    intro st
    obtain ⟨a, b⟩ := hd
    simp only [distLoop]
    obtain ⟨hs1, hs2⟩ := stepEntry_total rate now b (st a)
    obtain ⟨ht1, ht2⟩ := ih (applyStep rate now a b st)
    constructor
    · omega
    · intro h
      rcases Nat.eq_zero_or_pos (stepEntry rate now b (st a)).2.2 with h0 | hpos
      · have := ht2 (by omega)
        omega
      · have := hs2 hpos
        omega

/-- Under a duplicate-free batch, the final record of each listed account
is exactly its single iteration's outcome applied to its initial record. -/
theorem distLoop_nodup (rate now : Nat) :
    ∀ (l : List (Addr × Int)) (st : Addr → Option StakeEntry),
      (l.map Prod.fst).Nodup →
      ∀ a b, (a, b) ∈ l →
        (distLoop rate now l st).1 a = (stepEntry rate now b (st a)).1 := by
  intro l
  induction l with
  | nil => intro st _ a b h; exact absurd h (by simp)
  | cons hd tl ih =>
    intro st hnd a b hmem
    obtain ⟨a0, b0⟩ := hd
    simp only [List.map_cons, List.nodup_cons] at hnd
    rcases List.mem_cons.mp hmem with heq | htl
    · cases heq
      simp only [distLoop]
      rw [distLoop_notmem rate now a tl _ hnd.1]
      unfold applyStep
      rw [if_pos rfl]
    · have ha : a ≠ a0 := by
        intro h
        subst h
        exact hnd.1 (List.mem_map.mpr ⟨(a, b), htl, rfl⟩)
      simp only [distLoop]
      rw [ih _ hnd.2 a b htl]
      rw [applyStep_ne rate now a0 b0 st a ha]

/-- A published batch payload is the one handed to the emitter. -/
theorem emit_batch_reward_some (x d : BatchRewardEventData)
    (h : emit_batch_reward x = some d) : d = x := by
  unfold emit_batch_reward at h
  split at h
  · cases h; rfl
  · exact absurd h (by simp)

/-- Inversion of a successful `distribute_rewards`. -/
theorem distribute_rewards_spec (auth : Addr → Bool) (s : BRState) (now : Nat)
    (admin : Addr) (stakers : List Addr) (bonus_amounts : List Int)
    (s2 : BRState) (evs : List BatchRewardEventData)
    (h : distribute_rewards auth s now admin stakers bonus_amounts = some (s2, evs)) :
    stakers.length = bonus_amounts.length ∧
    ∃ config, s.config = some config ∧ s2.config = s.config ∧
      s2.stakes = (distLoop config.reward_rate now (stakers.zip bonus_amounts) s.stakes).1 ∧
      ((distLoop config.reward_rate now (stakers.zip bonus_amounts) s.stakes).2.2 = 0 →
        evs = []) ∧
      (0 < (distLoop config.reward_rate now (stakers.zip bonus_amounts) s.stakes).2.2 →
        evs = [⟨(distLoop config.reward_rate now (stakers.zip bonus_amounts) s.stakes).2.2,
               (distLoop config.reward_rate now (stakers.zip bonus_amounts) s.stakes).2.1,
               now⟩]) := by
  unfold distribute_rewards at h
  by_cases h1 : auth admin = true
  case neg => rw [if_pos (by exact h1)] at h; exact absurd h (by simp)
  rw [if_neg (not_not_intro h1)] at h
  by_cases h2 : stakers.length = bonus_amounts.length
  case neg => rw [if_pos (by exact h2)] at h; exact absurd h (by simp)
  rw [if_neg (not_not_intro h2)] at h
  by_cases h3 : stakers.isEmpty = true
  case pos => rw [if_pos h3] at h; exact absurd h (by simp)
  rw [if_neg h3] at h
  refine ⟨h2, ?_⟩
  cases hcfg : s.config with
  | none => rw [hcfg] at h; exact absurd h (by simp)
  | some config =>
    rw [hcfg] at h
    simp only at h
    by_cases h4 : config.admin = admin
    case neg => rw [if_pos (by exact h4)] at h; exact absurd h (by simp)
    rw [if_neg (not_not_intro h4)] at h
    refine ⟨config, rfl, ?_⟩
    by_cases h5 : 0 <
        (distLoop config.reward_rate now (stakers.zip bonus_amounts) s.stakes).2.2
    · rw [if_pos h5] at h
      cases hemit : emit_batch_reward
          ⟨(distLoop config.reward_rate now (stakers.zip bonus_amounts) s.stakes).2.2,
           (distLoop config.reward_rate now (stakers.zip bonus_amounts) s.stakes).2.1,
           now⟩ with
      | none => rw [hemit] at h; exact absurd h (by simp)
      | some d =>
        rw [hemit] at h
        simp only [Option.some.injEq, Prod.mk.injEq] at h
        have hd := emit_batch_reward_some _ _ hemit
        refine ⟨by rw [← h.1], by rw [← h.1], fun h0 => by omega, fun _ => ?_⟩
        rw [← h.2, hd]
    · rw [if_neg h5] at h
      simp only [Option.some.injEq, Prod.mk.injEq] at h
      refine ⟨by rw [← h.1], by rw [← h.1], fun _ => h.2.symm, fun hpos => ?_⟩
      exact absurd hpos h5

/-- C5: a successful `distribute_rewards` publishes at most one
notification; it publishes exactly one aggregate payload
`{count, total, timestamp}` (with positive count and total) precisely when
some account's stored balance was raised, and publishes nothing when no
account record changed. -/
theorem batch_emits_single_aggregate
    (auth : Addr → Bool) (s : BRState) (now : Nat) (admin : Addr)
    (stakers : List Addr) (bonus_amounts : List Int) (s2 : BRState)
    (evs : List BatchRewardEventData)
    (hrun : distribute_rewards auth s now admin stakers bonus_amounts = some (s2, evs)) :
    evs.length ≤ 1 ∧
    ((∃ a, balOf s.stakes a < balOf s2.stakes a) →
      ∃ c t, 0 < c ∧ 0 < t ∧ evs = [⟨c, t, now⟩]) ∧
    ((∀ a, s2.stakes a = s.stakes a) → evs = []) ∧
    (evs = [] → ∀ a, s2.stakes a = s.stakes a) := by
  obtain ⟨-, config, -, -, hst, hz, hp⟩ :=
    distribute_rewards_spec auth s now admin stakers bonus_amounts s2 evs hrun
  rcases Nat.eq_zero_or_pos
      (distLoop config.reward_rate now (stakers.zip bonus_amounts) s.stakes).2.2 with
    hrec | hrec
  · have hunch : ∀ a, s2.stakes a = s.stakes a := by
      intro a
      rw [hst]
      exact distLoop_recips_zero config.reward_rate now a _ s.stakes hrec
    refine ⟨by rw [hz hrec]; decide, ?_, fun _ => hz hrec, fun _ => hunch⟩
    intro ⟨a, ha⟩
    rw [show balOf s2.stakes a = balOf s.stakes a by unfold balOf; rw [hunch a]] at ha
    omega
  · have hevs := hp hrec
    have htot := (distLoop_total config.reward_rate now (stakers.zip bonus_amounts)
      s.stakes).2 hrec
    refine ⟨by rw [hevs]; exact le_refl _, ?_, ?_, ?_⟩
    · intro _
      exact ⟨_, _, hrec, htot, hevs⟩
    · intro hall
      obtain ⟨x, hx⟩ := distLoop_recips_pos config.reward_rate now
        (stakers.zip bonus_amounts) s.stakes hrec
      rw [← hst] at hx
      rw [show balOf s2.stakes x = balOf s.stakes x by unfold balOf; rw [hall x]] at hx
      omega
    · intro habs
      rw [hevs] at habs
      exact absurd habs (by simp)

/-- Concrete batch state for the C5 and C9 witnesses: no stake records, a
configured admin 7 with rate 1. -/
def c5s : BRState := ⟨fun _ => none, some ⟨7, 9, 1, 1⟩⟩

/-- State after distributing a single bonus of 5 to account 0. -/
def c5s2 : BRState :=
  { c5s with stakes := (distLoop 1 0 ([(0, 5)] : List (Addr × Int)) c5s.stakes).1 }

/-- Witness for C5 on the concrete one-account batch. -/
theorem batch_emits_single_aggregate_witness :
    ([(⟨1, 5, 0⟩ : BatchRewardEventData)]).length ≤ 1 := by
  exact (batch_emits_single_aggregate (fun _ => true) c5s 0 7 [0] [5] c5s2
    [⟨1, 5, 0⟩] rfl).1

/-- C9: a successful `distribute_rewards` never lowers any stored balance;
and, for a duplicate-free batch, every listed account whose computed
time-weighted-reward-plus-bonus is not positive keeps its record exactly
as it was (no write), while every other listed account's stored balance
grows by exactly that positive sum. -/
theorem distribute_never_decreases
    (auth : Addr → Bool) (s : BRState) (now : Nat) (admin : Addr)
    (stakers : List Addr) (bonus_amounts : List Int) (config : Config)
    (s2 : BRState) (evs : List BatchRewardEventData)
    (hc : s.config = some config)
    (hrun : distribute_rewards auth s now admin stakers bonus_amounts = some (s2, evs)) :
    (∀ a, balOf s.stakes a ≤ balOf s2.stakes a) ∧
    (stakers.Nodup →
      ∀ a b, (a, b) ∈ stakers.zip bonus_amounts →
        (userReward config.reward_rate now b (s.stakes a) ≤ 0 →
          s2.stakes a = s.stakes a) ∧
        (0 < userReward config.reward_rate now b (s.stakes a) →
          balOf s2.stakes a = balOf s.stakes a +
            userReward config.reward_rate now b (s.stakes a))) := by
  obtain ⟨hlen, config2, hc2, -, hst, -, -⟩ :=
    distribute_rewards_spec auth s now admin stakers bonus_amounts s2 evs hrun
  rw [hc] at hc2
  cases hc2
  constructor
  · intro a
    rw [hst]
    exact distLoop_bal_le config.reward_rate now a _ s.stakes
  · intro hnodup a b hmem
    have hnd : ((stakers.zip bonus_amounts).map Prod.fst).Nodup := by
      rw [List.map_fst_zip stakers bonus_amounts (by omega)]
      exact hnodup
    have hkey : s2.stakes a = (stepEntry config.reward_rate now b (s.stakes a)).1 := by
      rw [hst]
      exact distLoop_nodup config.reward_rate now _ s.stakes hnd a b hmem
    rw [stepEntry_eq] at hkey
    constructor
    · intro hle
      rw [if_neg (by omega)] at hkey
      exact hkey
    · intro hpos
      rw [if_pos hpos] at hkey
      unfold balOf
      rw [hkey]
      simp

/-- Witness for C9 on the concrete one-account batch. -/
theorem distribute_never_decreases_witness :
    balOf c5s.stakes 0 ≤ balOf c5s2.stakes 0 := by
  exact (distribute_never_decreases (fun _ => true) c5s 0 7 [0] [5] ⟨7, 9, 1, 1⟩
    c5s2 [⟨1, 5, 0⟩] rfl rfl).1 0

/-- Configured admin 7, token 9, rate 10000 basis points, minimum stake 1,
used by the C4 counterexample. -/
def c4cfg : Config := ⟨7, 9, 10000, 1⟩

/-- State with one staked account (balance 100 since time 0). -/
def c4s0 : BRState := ⟨fun a => if a = 0 then some ⟨100, 0⟩ else none, some c4cfg⟩

/-- Evaluation instant of the C4 counterexample: one rate-period later. -/
def c4now : Nat := 31536000

/-- C4 counterexample: with account 0 listed twice and zero bonuses,
`preview_rewards` promises a reward of 100 for each listed entry (sum
200), but `distribute_rewards` credits the account only 100 in total (its
balance moves 100 → 200 and the single aggregate notification carries
`total_rewards = 100`): the state written by the first iteration makes
the second iteration compute 0, while the stateless preview repeats 100.
So `preview_rewards` does not return, for each entry of the list, the
reward that `distribute_rewards` computes and applies for it. -/
theorem preview_vs_distribute_duplicate :
    preview_rewards c4s0 c4now [0, 0] = some [100, 100] ∧
    (distribute_rewards (fun _ => true) c4s0 c4now 7 [0, 0] [0, 0]).map
      (fun r => (balOf r.1.stakes 0, r.2)) = some (200, [⟨1, 100, c4now⟩]) ∧
    ¬ ((200 : Int) - 100 = 100 + 100) := by
  refine ⟨by decide, by decide, by decide⟩

/-- C4 (amended): for a duplicate-free account list settled with zero
bonuses, `preview_rewards` returns exactly the per-account sums that a
`distribute_rewards` call at the same instant computes and applies: each
listed account's stored balance grows by exactly its previewed reward, a
zero previewed reward leaves the record untouched, and the preview itself
(by construction) writes no state and publishes nothing. -/
theorem preview_matches_distribute
    (auth : Addr → Bool) (s : BRState) (now : Nat) (admin : Addr)
    (stakers : List Addr) (bonus_amounts : List Int) (config : Config)
    (s2 : BRState) (evs : List BatchRewardEventData)
    (hc : s.config = some config)
    (hnodup : stakers.Nodup)
    (hz : ∀ b ∈ bonus_amounts, b = (0 : Int))
    (hrun : distribute_rewards auth s now admin stakers bonus_amounts = some (s2, evs)) :
    preview_rewards s now stakers =
      some (stakers.map (fun a => userReward config.reward_rate now 0 (s.stakes a))) ∧
    ∀ a ∈ stakers,
      balOf s2.stakes a = balOf s.stakes a +
        userReward config.reward_rate now 0 (s.stakes a) ∧
      (userReward config.reward_rate now 0 (s.stakes a) = 0 →
        s2.stakes a = s.stakes a) := by
  obtain ⟨hlen, config2, hc2, -, hst, -, -⟩ :=
    distribute_rewards_spec auth s now admin stakers bonus_amounts s2 evs hrun
  rw [hc] at hc2
  cases hc2
  constructor
  · unfold preview_rewards
    rw [hc]
    have hfun : (fun a => userReward config.reward_rate now 0 (s.stakes a))
        = fun staker =>
            if 0 < ((s.stakes staker).getD ⟨0, 0⟩).balance then
              compute_reward ((s.stakes staker).getD ⟨0, 0⟩).balance
                ((s.stakes staker).getD ⟨0, 0⟩).staked_at now config.reward_rate
            else 0 := by
      funext a
      simp [userReward]
    rw [hfun]
  · intro a hmem
    have hmem2 : a ∈ (stakers.zip bonus_amounts).map Prod.fst := by
      rw [List.map_fst_zip stakers bonus_amounts (by omega)]
      exact hmem
    obtain ⟨p, hpz, hpa⟩ := List.mem_map.mp hmem2
    obtain ⟨a2, b⟩ := p
    have ha2 : a2 = a := hpa
    rw [ha2] at hpz
    have hb : b = 0 := hz b (List.of_mem_zip hpz).2
    subst hb
    have hnd : ((stakers.zip bonus_amounts).map Prod.fst).Nodup := by
      rw [List.map_fst_zip stakers bonus_amounts (by omega)]
      exact hnodup
    have hkey : s2.stakes a = (stepEntry config.reward_rate now 0 (s.stakes a)).1 := by
      rw [hst]
      exact distLoop_nodup config.reward_rate now _ s.stakes hnd a 0 hpz
    have hwnn : 0 ≤ userReward config.reward_rate now 0 (s.stakes a) :=
      userReward_nonneg config.reward_rate now 0 (s.stakes a) (le_refl 0)
    rw [stepEntry_eq] at hkey
    by_cases hw : 0 < userReward config.reward_rate now 0 (s.stakes a)
    · rw [if_pos hw] at hkey
      refine ⟨?_, fun h0 => by omega⟩
      unfold balOf
      rw [hkey]
      simp
    · rw [if_neg hw] at hkey
      have hkey2 : s2.stakes a = s.stakes a := hkey
      have hw0 : userReward config.reward_rate now 0 (s.stakes a) = 0 := by omega
      refine ⟨?_, fun _ => hkey2⟩
      rw [hw0]
      unfold balOf
      rw [hkey2]
      omega

/-- Empty-stakes state used by the C4 amended-claim witness. -/
def c4ws : BRState := ⟨fun _ => none, some ⟨7, 9, 1, 1⟩⟩

/-- State after the witness settlement (a no-op batch: one account, no
stake, zero bonus). -/
def c4ws2 : BRState :=
  { c4ws with stakes := (distLoop 1 0 ([(0, 0)] : List (Addr × Int)) c4ws.stakes).1 }

/-- Witness for the amended C4 on the concrete one-account batch. -/
theorem preview_matches_distribute_witness :
    balOf c4ws2.stakes 0 = balOf c4ws.stakes 0 + userReward 1 0 0 (c4ws.stakes 0) := by
  exact ((preview_matches_distribute (fun _ => true) c4ws 0 7 [0] [0] ⟨7, 9, 1, 1⟩
    c4ws2 [] rfl (by decide) (by decide) rfl).2 0 (by decide)).1

end StellarSpend
